import Mathlib

/-
  Verification development for the astrobase repository
  (src/astrobase/services/skyview.py and src/astrobase/varclass/rfclass.py).

  The Python functions are shallowly embedded as executable Lean
  definitions.  Machine-level details that cannot influence the verified
  claims are abstracted in a controlled way:

  * the SkyView HTTP layer is a `NetOracle` value: the outcome of the
    query request (a transport error, or the list of FITS URLs that
    FITS_REGEX.findall extracts from the response text) together with the
    content served for each result URL;
  * a FITS file content is its decoded pixel frame plus its header;
  * sha256 cache hashing is replaced by the (injective for our purposes)
    raw key string "position-survey-scaling" that the code hashes;
  * astropy.convolution.convolve is an explicit function argument, since
    it is an external library call;
  * scikit-learn model objects are records of opaque predict functions;
  * writing output pickles to disk is a side effect with no influence on
    returned values and is not modelled.
-/

namespace Astrobase

/-- Association-list lookup with string keys; models Python dict
membership and indexing for the small string-keyed mappings used by the
code (cache directory contents, per-object feature mappings, label
dicts). -/
def lookupStr {β : Type} (l : List (String × β)) (k : String) : Option β :=
  match l with
  | [] => none
  | (k', v) :: rest => if k' = k then some v else lookupStr rest k

@[simp] theorem lookupStr_nil {β : Type} (k : String) :
    lookupStr ([] : List (String × β)) k = none := rfl

@[simp] theorem lookupStr_cons {β : Type} (k' k : String) (v : β) (rest : List (String × β)) :
    lookupStr ((k', v) :: rest) k = if k' = k then some v else lookupStr rest k := rfl

/-! ## skyview.py -/

/-- A pixel array (numpy 2-D array of the FITS frame), rows outermost. -/
abbrev Frame := List (List Int)

/-- FITS header metadata, abstracted. -/
abbrev Header := Nat

/-- The decoded content of one FITS file served by SkyView: its pixel
frame and its header. -/
structure Content where
  frame : Frame
  header : Header
deriving DecidableEq, Repr

/-- An astropy convolution kernel, abstracted. -/
abbrev Kernel := Int

/-- Transport-level failures of the requests library that get_stamp
re-raises. -/
inductive NetError where
  | httpError
  | timeout
  | other
deriving DecidableEq, Repr

/-- The remote SkyView service as seen by one get_stamp call: the query
either fails with a transport error or produces the list of FITS URLs
that FITS_REGEX.findall finds in the response text, and each URL serves
some content. -/
structure NetOracle where
  queryResult : Except NetError (List String)
  fetchContent : String → Content

/-- The on-disk stamp cache: an association of cache file names to the
(gzip-compressed) contents written there.  A write prepends, so lookup
sees the newest write, matching file overwriting. -/
abbrev Cache := List (String × Content)

/-- The raw string that get_stamp hashes to produce the cache key:
cachekey = '%s-%s-%s' % (formposition[0], survey, scaling). -/
def cacheKey (formposition survey scaling : String) : String :=
  formposition ++ "-" ++ survey ++ "-" ++ scaling

/-- The caller-supplied parameters of get_stamp that the claims depend
on.  The position is kept in its formatted form formposition[0]. -/
structure StampParams where
  formposition : String
  survey : String
  scaling : String
  flip : Bool
  convolvewith : Option Kernel
  forcefetch : Bool
  savewcsheader : Bool
deriving DecidableEq, Repr

/-- np.flipud: reversal of the row order of the frame. -/
def flipud (f : Frame) : Frame := f.reverse

/-- What get_stamp hands back on success: the pixel array, and the FITS
header when savewcsheader is set. -/
structure StampResult where
  pixels : Frame
  header : Option Header
deriving DecidableEq, Repr

/-- One call of get_stamp, observationally: the returned value (none
models the Python return None on the "no FITS URLs found" soft failure),
the cache directory state after the call, and whether the network
request branch ran. -/
structure StampOutcome where
  result : Option StampResult
  cache : Cache
  fetched : Bool
deriving DecidableEq, Repr

/-- The frame-processing tail of get_stamp (lines 238-263): open the
cached file, optionally np.flipud it, optionally convolve it.  The
source computes convolved = aconv.convolve(frame, convolvewith) and then
returns frame in both branches, so the convolution result is bound and
discarded here exactly as in the code. -/
def stamp_finish (conv : Frame → Kernel → Frame) (p : StampParams)
    (content : Content) : StampResult :=
  let frame0 := content.frame
  let frame := if p.flip then flipud frame0 else frame0
  match p.convolvewith with
  | some kernel =>
    let convolved := conv frame kernel
    if p.savewcsheader then ⟨frame, some content.header⟩ else ⟨frame, none⟩
  | none =>
    if p.savewcsheader then ⟨frame, some content.header⟩ else ⟨frame, none⟩

/-- Shallow embedding of get_stamp (skyview.py lines 120-263).  conv is
astropy.convolution.convolve.  The fetch branch runs when forcefetch is
set or the cache file is absent; it downloads every matched FITS URL in
order, writing each to the cache file (the gzip.open inside the for
loop), then the frame is loaded back from the cache file.  The
unreachable error arms model pyfits.open raising on a missing file. -/
def get_stamp (conv : Frame → Kernel → Frame) (oracle : NetOracle)
    (cache : Cache) (p : StampParams) : Except NetError StampOutcome :=
  let key := cacheKey p.formposition p.survey p.scaling
  if p.forcefetch || (lookupStr cache key).isNone then
    match oracle.queryResult with
    | .error e => .error e
    | .ok fitsurls =>
      match fitsurls with
      | [] => .ok ⟨none, cache, true⟩
      | u :: us =>
        let newcache := (u :: us).foldl
          (fun c url => (key, oracle.fetchContent url) :: c) cache
        match lookupStr newcache key with
        | some content => .ok ⟨some (stamp_finish conv p content), newcache, true⟩
        | none => .error .other
  else
    match lookupStr cache key with
    | some content => .ok ⟨some (stamp_finish conv p content), cache, false⟩
    | none => .error .other

/-- After the download loop, the cache file holds the content of the
last URL in the list (each iteration overwrites the file); an empty URL
list leaves the cache untouched. -/
theorem lookup_after_download_loop (key : String) (fetch : String → Content)
    (cache : Cache) (urls : List String) :
    lookupStr (urls.foldl (fun c url => (key, fetch url) :: c) cache) key
      = match urls.getLast? with
        | some u => some (fetch u)
        | none => lookupStr cache key := by
  induction urls generalizing cache with
  | nil => rfl
  | cons u us ih =>
    rw [List.foldl_cons, ih]
    cases us with
    | nil => simp
    | cons u2 us2 =>
      cases h : (u2 :: us2).getLast? with
      | some w => simp [h]
      | none => simp [List.getLast?_eq_none_iff] at h

/-- C9: np.flipud as used by get_stamp is an involution: flipping a
frame twice returns the original frame. -/
theorem flipud_involutive (frame : Frame) : flipud (flipud frame) = frame :=
  List.reverse_reverse frame

/-- A concrete non-trivial convolution standing in for
astropy.convolution.convolve in the C1 counterexample run. -/
def convC1 : Frame → Kernel → Frame :=
  fun f _ => f.map (fun row => row.map (fun x => x + 1))

/-- A cache directory that already holds the stamp for the C1 run. -/
def cacheC1 : Cache :=
  [(cacheKey "12.0000, 34.0000" "DSS2 Red" "Linear", ⟨[[1, 2], [3, 4]], 7⟩)]

/-- An oracle whose network is down; the C1 run never touches it. -/
def oracleC1 : NetOracle := ⟨.error .timeout, fun _ => ⟨[], 0⟩⟩

/-- C1 parameters: convolvewith is supplied (kernel 1), flip off,
savewcsheader off, no forced refetch. -/
def pC1 : StampParams :=
  ⟨"12.0000, 34.0000", "DSS2 Red", "Linear", false, some 1, false, false⟩

/-- C1: with a convolution kernel supplied, the pixel array get_stamp
returns is the unconvolved cached frame: the source binds
convolved = aconv.convolve(frame, convolvewith) and then returns frame,
so the returned pixels differ from the convolution of the frame under
any non-trivial kernel (here convC1). -/
theorem get_stamp_convolution_discarded :
    (get_stamp convC1 oracleC1 cacheC1 pC1).map
        (fun out => out.result.map (fun r => r.pixels))
      = .ok (some ([[1, 2], [3, 4]] : Frame))
  ∧ convC1 [[1, 2], [3, 4]] 1 ≠ ([[1, 2], [3, 4]] : Frame) :=
  ⟨rfl, by decide⟩

/-- Branch lemma: when the fetch branch runs and at least one FITS URL
is matched, get_stamp downloads every URL in order into the cache file
and then serves the frame read back from it (the last URL content). -/
theorem get_stamp_fetch_eq (conv : Frame → Kernel → Frame)
    (oracle : NetOracle) (cache : Cache) (p : StampParams) (urls : List String)
    (hq : oracle.queryResult = .ok urls) (hne : urls ≠ [])
    (hbranch : (p.forcefetch
        || (lookupStr cache (cacheKey p.formposition p.survey p.scaling)).isNone) = true) :
    get_stamp conv oracle cache p
      = .ok ⟨some (stamp_finish conv p (oracle.fetchContent (urls.getLast hne))),
             urls.foldl
               (fun c url =>
                 (cacheKey p.formposition p.survey p.scaling,
                  oracle.fetchContent url) :: c) cache,
             true⟩ := by
  have hlast : lookupStr
      (urls.foldl
        (fun c url =>
          (cacheKey p.formposition p.survey p.scaling,
           oracle.fetchContent url) :: c) cache)
      (cacheKey p.formposition p.survey p.scaling)
    = some (oracle.fetchContent (urls.getLast hne)) := by
    rw [lookup_after_download_loop, List.getLast?_eq_getLast _ hne]
  obtain ⟨u, us, rfl⟩ := List.exists_cons_of_ne_nil hne
  unfold get_stamp
  simp only [hbranch, if_true, hq]
  rw [hlast]

/-- Branch lemma: with forcefetch off and the cache file present,
get_stamp serves the cached content without touching the network. -/
theorem get_stamp_cache_hit_eq (conv : Frame → Kernel → Frame)
    (oracle : NetOracle) (cache : Cache) (p : StampParams)
    (hff : p.forcefetch = false) (c : Content)
    (hlk : lookupStr cache (cacheKey p.formposition p.survey p.scaling) = some c) :
    get_stamp conv oracle cache p
      = .ok ⟨some (stamp_finish conv p c), cache, false⟩ := by
  unfold get_stamp
  rw [hff]
  simp [hlk]

/-- C4 (amended): when the fetch branch runs and the response yields at
least one FITS URL, every URL is downloaded in order, each overwriting
the cache file, so the content at the cache path afterwards is the
content downloaded from the LAST matching URL. -/
theorem get_stamp_cache_holds_last_url (conv : Frame → Kernel → Frame)
    (oracle : NetOracle) (cache : Cache) (p : StampParams) (urls : List String)
    (hq : oracle.queryResult = .ok urls) (hne : urls ≠ [])
    (hbranch : (p.forcefetch
        || (lookupStr cache (cacheKey p.formposition p.survey p.scaling)).isNone) = true) :
    get_stamp conv oracle cache p
      = .ok ⟨some (stamp_finish conv p (oracle.fetchContent (urls.getLast hne))),
             urls.foldl
               (fun c url =>
                 (cacheKey p.formposition p.survey p.scaling,
                  oracle.fetchContent url) :: c) cache,
             true⟩
  ∧ lookupStr
        (urls.foldl
          (fun c url =>
            (cacheKey p.formposition p.survey p.scaling,
             oracle.fetchContent url) :: c) cache)
        (cacheKey p.formposition p.survey p.scaling)
      = some (oracle.fetchContent (urls.getLast hne)) := by
  refine ⟨get_stamp_fetch_eq conv oracle cache p urls hq hne hbranch, ?_⟩
  rw [lookup_after_download_loop, List.getLast?_eq_getLast _ hne]

/-- A SkyView response carrying two FITS URLs with distinct contents. -/
def oracleC4 : NetOracle :=
  ⟨.ok ["urlA", "urlB"],
   fun u => if u = "urlA" then ⟨[[1]], 1⟩ else ⟨[[2]], 2⟩⟩

/-- C4 counterexample parameters: empty cache, no forced refetch. -/
def pC4 : StampParams :=
  ⟨"1.0000, 2.0000", "DSS2 Red", "Linear", false, none, false, false⟩

/-- The cache file name of the C4 run. -/
def keyC4 : String := cacheKey "1.0000, 2.0000" "DSS2 Red" "Linear"

/-- C4 counterexample: with two matched URLs of distinct contents, the
cache path ends up holding the second (last) URL content, not the
content of the first matching URL as the claim states. -/
theorem get_stamp_first_url_cex :
    (get_stamp (fun f _ => f) oracleC4 [] pC4).map
        (fun out => lookupStr out.cache keyC4)
      = .ok (some ⟨[[2]], 2⟩)
  ∧ oracleC4.fetchContent "urlA" = ⟨[[1]], 1⟩
  ∧ (⟨[[2]], 2⟩ : Content) ≠ ⟨[[1]], 1⟩ :=
  ⟨rfl, rfl, by decide⟩

/-- Witness for get_stamp_cache_holds_last_url at a concrete input. -/
theorem get_stamp_cache_holds_last_url_witness :
    get_stamp (fun f _ => f) oracleC4 [] pC4
      = .ok ⟨some (stamp_finish (fun f _ => f) pC4
               (oracleC4.fetchContent (["urlA", "urlB"].getLast (by decide)))),
             ["urlA", "urlB"].foldl
               (fun c url =>
                 (cacheKey pC4.formposition pC4.survey pC4.scaling,
                  oracleC4.fetchContent url) :: c) [],
             true⟩
  ∧ lookupStr
        (["urlA", "urlB"].foldl
          (fun c url =>
            (cacheKey pC4.formposition pC4.survey pC4.scaling,
             oracleC4.fetchContent url) :: c) [])
        (cacheKey pC4.formposition pC4.survey pC4.scaling)
      = some (oracleC4.fetchContent (["urlA", "urlB"].getLast (by decide))) :=
  get_stamp_cache_holds_last_url (fun f _ => f) oracleC4 [] pC4
    ["urlA", "urlB"] rfl (by decide) rfl

/-- C7: a second get_stamp call with identical parameters and
forcefetch off, on the cache state left by a successful first call,
takes the cache branch (fetched = false), leaves the cache unchanged,
and returns exactly the first call result — whatever the second oracle
does. -/
theorem get_stamp_second_call_uses_cache (conv : Frame → Kernel → Frame)
    (o1 o2 : NetOracle) (cache : Cache) (p : StampParams)
    (hff : p.forcefetch = false) (out1 : StampOutcome) (r1 : StampResult)
    (h1 : get_stamp conv o1 cache p = .ok out1) (hr : out1.result = some r1) :
    get_stamp conv o2 out1.cache p = .ok ⟨some r1, out1.cache, false⟩ := by
  cases hlk : lookupStr cache (cacheKey p.formposition p.survey p.scaling) with
  | some c =>
    rw [get_stamp_cache_hit_eq conv o1 cache p hff c hlk] at h1
    injection h1 with h1
    subst h1
    have hr' : some (stamp_finish conv p c) = some r1 := hr
    injection hr' with hr''
    subst hr''
    exact get_stamp_cache_hit_eq conv o2 cache p hff c hlk
  | none =>
    have hbranch : (p.forcefetch
        || (lookupStr cache (cacheKey p.formposition p.survey p.scaling)).isNone) = true := by
      rw [hlk]; simp
    cases hq : o1.queryResult with
    | error e =>
      have e1 : get_stamp conv o1 cache p = .error e := by
        unfold get_stamp
        simp only [hbranch, if_true, hq]
      rw [e1] at h1
      exact Except.noConfusion h1
    | ok urls =>
      cases urls with
      | nil =>
        have e1 : get_stamp conv o1 cache p = .ok ⟨none, cache, true⟩ := by
          unfold get_stamp
          simp only [hbranch, if_true, hq]
        rw [e1] at h1
        injection h1 with h1
        subst h1
        have hr' : (none : Option StampResult) = some r1 := hr
        exact Option.noConfusion hr'
      | cons u us =>
        have hne : u :: us ≠ [] := List.cons_ne_nil u us
        rw [get_stamp_fetch_eq conv o1 cache p (u :: us) hq hne hbranch] at h1
        injection h1 with h1
        subst h1
        have hr' : some (stamp_finish conv p
            (o1.fetchContent ((u :: us).getLast hne))) = some r1 := hr
        injection hr' with hr''
        subst hr''
        have hl2 : lookupStr
            ((u :: us).foldl
              (fun c url =>
                (cacheKey p.formposition p.survey p.scaling,
                 o1.fetchContent url) :: c) cache)
            (cacheKey p.formposition p.survey p.scaling)
          = some (o1.fetchContent ((u :: us).getLast hne)) := by
          rw [lookup_after_download_loop, List.getLast?_eq_getLast _ hne]
        exact get_stamp_cache_hit_eq conv o2 _ p hff _ hl2

/-- Parameters of the concrete C7 run: flip on, header wanted, no
forced refetch. -/
def p7 : StampParams :=
  ⟨"3.0000, 4.0000", "DSS2 Red", "Log", true, none, false, true⟩

/-- First-call oracle of the C7 run: one FITS URL is matched. -/
def o7a : NetOracle := ⟨.ok ["u1"], fun _ => ⟨[[1], [2]], 9⟩⟩

/-- Second-call oracle of the C7 run: the network is down, showing the
second call never touches it. -/
def o7b : NetOracle := ⟨.error .timeout, fun _ => ⟨[[0]], 0⟩⟩

/-- The outcome of the first C7 call, starting from an empty cache. -/
def out7 : StampOutcome :=
  ⟨some ⟨[[2], [1]], some 9⟩,
   [(cacheKey "3.0000, 4.0000" "DSS2 Red" "Log", ⟨[[1], [2]], 9⟩)],
   true⟩

/-- Witness for get_stamp_second_call_uses_cache at a concrete input. -/
theorem get_stamp_second_call_uses_cache_witness :
    get_stamp (fun f _ => f) o7b out7.cache p7
      = .ok ⟨some ⟨[[2], [1]], some 9⟩, out7.cache, false⟩ :=
  get_stamp_second_call_uses_cache (fun f _ => f) o7a o7b [] p7 rfl out7
    ⟨[[2], [1]], some 9⟩ rfl rfl

/-! ## rfclass.py -/

/-- The default feature list NONPERIODIC_FEATURES_TO_COLLECT. -/
def NONPERIODIC_FEATURES_TO_COLLECT : List String :=
  ["stetsonj", "stetsonk", "amplitude", "magnitude_ratio",
   "linear_fit_slope", "eta_normal",
   "percentile_difference_flux_percentile", "mad", "skew", "kurtosis",
   "mag_iqr", "beyond1std", "grcolor", "gicolor", "ricolor", "bvcolor",
   "jhcolor", "jkcolor", "hkcolor", "gkcolor", "propermotion"]

/-- One varfeatures pickle as collect_features reads it: the objectid
plus the feature name to value mapping found under the magcol key (the
magcol indexing is collapsed since one fixed magcol is used per call).
Feature values are modelled as integers. -/
structure VarFeatures where
  objectid : String
  features : List (String × Int)
deriving DecidableEq, Repr

/-- The kwargs element stored inside the returned feature dict:
the call parameters pklglob, featurestouse, maxobjects, labeltype. -/
structure CollectKwargs where
  pklglob : String
  featurestouse : List String
  maxobjects : Option Int
  labeltype : String
deriving DecidableEq, Repr

/-- The feature dict collect_features returns (omitting the raw
per-feature value lists, which are subsumed by features_array). -/
structure FeatureDict where
  objectids : List String
  magcol : String
  availablefeatures : List String
  features_array : List (List Int)
  labels_array : Option (List Int)
  kwargs : CollectKwargs
deriving DecidableEq, Repr

/-- The mutable state of the collection loop: the objectid list, the
availablefeatures list, and the per-feature accumulated value lists
(feature_dict[feature]). -/
structure AccState where
  objectids : List String
  availablefeatures : List String
  featvals : String → List Int

/-- The state before the loop:
feature_dict = \x7b'objectids':[], 'availablefeatures':[]\x7d. -/
def initialAccState : AccState := ⟨[], [], fun _ => []⟩

/-- The body of the inner feature loop for one feature name: register
the feature as available on first sight (when present in this record),
then append its value when present (rfclass.py lines 275-288). -/
def collect_one_feature (thisfeatures : List (String × Int))
    (s : AccState) (feature : String) : AccState :=
  let s1 :=
    if feature ∉ s.availablefeatures ∧ (lookupStr thisfeatures feature).isSome then
      { s with availablefeatures := s.availablefeatures ++ [feature],
               featvals := fun f => if f = feature then [] else s.featvals f }
    else s
  match lookupStr thisfeatures feature with
  | some v =>
    { s1 with featvals := fun f => if f = feature then s1.featvals f ++ [v]
                                   else s1.featvals f }
  | none => s1

/-- The body of the outer pickle loop for one varfeatures record:
register the objectid once, then run the feature loop over
featurestoget (rfclass.py lines 257-288). -/
def collect_one_record (featurestouse : List String) (s : AccState)
    (varf : VarFeatures) : AccState :=
  let s1 := if varf.objectid ∈ s.objectids then s
            else { s with objectids := s.objectids ++ [varf.objectid] }
  let featurestoget := if 0 < featurestouse.length then featurestouse
                       else NONPERIODIC_FEATURES_TO_COLLECT
  featurestoget.foldl (collect_one_feature varf.features) s1

/-- np.column_stack on a list of 1-D columns: fails on an empty list
(np.concatenate raises "need at least one array to concatenate") or on
length-mismatched columns, otherwise produces the row-major matrix. -/
def column_stack (cols : List (List Int)) : Except String (List (List Int)) :=
  match cols with
  | [] => .error "need at least one array to concatenate"
  | c0 :: rest =>
    if (c0 :: rest).all (fun c => c.length == c0.length) then
      .ok ((List.range c0.length).map
        (fun i => (c0 :: rest).map (fun c => c.getD i 0)))
    else .error "all the input array dimensions must match"

/-- Python list slicing pklist[:m], including the negative-m case. -/
def pySliceTo {α : Type} (l : List α) (m : Int) : List α :=
  if 0 ≤ m then l.take m.toNat else l.take (l.length - (-m).toNat)

/-- The pickle list actually processed: glob result truncated by
pklist[:maxobjects] only when maxobjects is truthy (not None and not
0), per "if maxobjects:" (rfclass.py lines 241-242). -/
def effective_pklist (pklist : List VarFeatures) (maxobjects : Option Int) :
    List VarFeatures :=
  match maxobjects with
  | some m => if m = 0 then pklist else pySliceTo pklist m
  | none => pklist

/-- The label assigned to one objectid (rfclass.py lines 306-322):
start at 0; when the objectid is in labeldict, binary mode writes 1 for
a truthy value, classes mode writes the class integer; any other
labeltype, or an absent objectid, leaves 0. -/
def label_for (labeldict : List (String × Int)) (labeltype : String)
    (objectid : String) : Int :=
  match lookupStr labeldict objectid with
  | some v =>
    if labeltype = "binary" then (if v ≠ 0 then 1 else 0)
    else if labeltype = "classes" then v
    else 0
  | none => 0

/-- The accumulated state after the pickle loop of collect_features:
the fold of collect_one_record over the truncated glob result. -/
def collect_state (featuresdir : String → List VarFeatures)
    (pklglob : String) (featurestouse : List String)
    (maxobjects : Option Int) : AccState :=
  (effective_pklist (featuresdir pklglob) maxobjects).foldl
    (collect_one_record featurestouse) initialAccState

/-- Shallow embedding of collect_features (rfclass.py lines 185-337).
featuresdir maps a glob pattern to the files matched beneath the
directory; writing the output pickle is omitted (pure side effect).  A
Python exception escaping the call (from np.column_stack) is the error
case. -/
def collect_features (featuresdir : String → List VarFeatures)
    (magcol : String) (pklglob : String) (featurestouse : List String)
    (maxobjects : Option Int) (labeldict : Option (List (String × Int)))
    (labeltype : String) : Except String FeatureDict :=
  let s := collect_state featuresdir pklglob featurestouse maxobjects
  match column_stack (s.availablefeatures.map s.featvals) with
  | .error e => .error e
  | .ok feature_array =>
    let labels_array :=
      labeldict.map (fun d => s.objectids.map (label_for d labeltype))
    .ok { objectids := s.objectids, magcol := magcol,
          availablefeatures := s.availablefeatures,
          features_array := feature_array,
          labels_array := labels_array,
          kwargs := { pklglob := pklglob, featurestouse := featurestouse,
                      maxobjects := maxobjects, labeltype := labeltype } }

/-- A dict-or-path-or-other argument, as accepted by the classifier
entry points via isinstance checks. -/
inductive PyArg (α : Type) where
  | path (p : String)
  | value (d : α)
  | other

/-- The shared input-resolution prologue (rfclass.py lines 375-382,
506-513, 590-597): an existing path loads the pickle (fs maps existing
paths to their unpickled values), a dict is used as is, anything else
resolves to nothing after a logged error. -/
def resolve_input {α : Type} (fs : String → Option α) (arg : PyArg α) :
    Option α :=
  match arg with
  | .path p => fs p
  | .value d => some d
  | .other => none

/-- A trained RandomForestClassifier, abstracted to its prediction
entry points. -/
structure RFClassifier where
  predict : List (List Int) → List Int
  predict_proba : List (List Int) → List (List Int)

/-- The trained-classifier dict apply_rf_classifier consumes:
feature_names is optional to model the "'feature_names' not in clfdict"
check; collect_kwargs is the collect_features kwargs of the training
collection. -/
structure ClassifierDict where
  feature_names : Option (List String)
  collect_kwargs : CollectKwargs
  magcol : String
  best_classifier : RFClassifier

/-- The result dict of apply_rf_classifier. -/
structure ApplyOut where
  features : FeatureDict
  classifier : ClassifierDict
  predicted_labels : List Int
  predicted_label_probs : List (List Int)

/-- Shallow embedding of train_rf_classifier (rfclass.py lines
345-484): the input-resolution prologue is explicit; the train/test
split, cross-validated search and evaluation are scikit-learn library
computation, abstracted as the total function core applied to the
resolved feature dict. -/
def train_rf_classifier {τ : Type} (core : FeatureDict → τ)
    (fs : String → Option FeatureDict) (collected_features : PyArg FeatureDict) :
    Option τ :=
  (resolve_input fs collected_features).map core

/-- Shallow embedding of apply_rf_classifier (rfclass.py lines
488-569).  Note: labeltype is read from the classifier collect_kwargs
but is NOT forwarded to collect_features, which therefore runs with its
default labeltype 'binary' (and no labeldict); this mirrors the call at
lines 538-545.  Writing the output pickle is omitted. -/
def apply_rf_classifier (fs : String → Option ClassifierDict)
    (varfeaturesdir : String → List VarFeatures)
    (classifier : PyArg ClassifierDict) (maxobjects : Option Int) :
    Except String (Option ApplyOut) :=
  match resolve_input fs classifier with
  | none => .ok none
  | some clfdict =>
    match clfdict.feature_names with
    | none => .ok none
    | some featurestouse =>
      let labeltype := clfdict.collect_kwargs.labeltype
      let pklglob := clfdict.collect_kwargs.pklglob
      let magcol := clfdict.magcol
      match collect_features varfeaturesdir magcol pklglob featurestouse
          maxobjects none "binary" with
      | .error e => .error e
      | .ok features =>
        .ok (some { features := features,
                    classifier := clfdict,
                    predicted_labels :=
                      clfdict.best_classifier.predict features.features_array,
                    predicted_label_probs :=
                      clfdict.best_classifier.predict_proba
                        features.features_array })

/-- Inversion helper for Except.map hitting ok. -/
theorem except_map_eq_ok {ε α β : Type} (f : α → β) (x : Except ε α) (b : β) :
    x.map f = .ok b ↔ ∃ a, x = .ok a ∧ f a = b := by
  cases x <;> simp [Except.map]

/-- collect_features written as an Except.map over the column_stack
outcome on the loop state. -/
theorem collect_features_cases (featuresdir : String → List VarFeatures)
    (magcol pklglob : String) (featurestouse : List String)
    (maxobjects : Option Int) (labeldict : Option (List (String × Int)))
    (labeltype : String) :
    collect_features featuresdir magcol pklglob featurestouse maxobjects
        labeldict labeltype
      = (column_stack
          ((collect_state featuresdir pklglob featurestouse
              maxobjects).availablefeatures.map
            (collect_state featuresdir pklglob featurestouse
              maxobjects).featvals)).map
          (fun arr =>
            { objectids := (collect_state featuresdir pklglob featurestouse
                maxobjects).objectids,
              magcol := magcol,
              availablefeatures := (collect_state featuresdir pklglob
                featurestouse maxobjects).availablefeatures,
              features_array := arr,
              labels_array := labeldict.map (fun d =>
                (collect_state featuresdir pklglob featurestouse
                  maxobjects).objectids.map (label_for d labeltype)),
              kwargs := ⟨pklglob, featurestouse, maxobjects, labeltype⟩ }) := by
  simp only [collect_features]
  cases column_stack
      ((collect_state featuresdir pklglob featurestouse
          maxobjects).availablefeatures.map
        (collect_state featuresdir pklglob featurestouse
          maxobjects).featvals) <;> rfl

/-- The trivial classifier standing in for the scikit-learn model in
concrete runs. -/
def rfTrivial : RFClassifier := ⟨fun _ => [], fun _ => []⟩

/-- The C2 classifier dict: feature_names present, binary collection
kwargs. -/
def bundleC2 : ClassifierDict :=
  ⟨some ["mad"], ⟨"varfeatures-*.pkl", ["mad"], none, "binary"⟩,
   "aep_000", rfTrivial⟩

/-- C2: applying a classifier over a features directory where the glob
matches zero files raises from np.column_stack([]) inside
collect_features ("need at least one array to concatenate") instead of
returning an empty-object prediction result. -/
theorem apply_rf_classifier_empty_glob_raises :
    apply_rf_classifier (fun _ => none) (fun _ => []) (.value bundleC2) none
      = .error "need at least one array to concatenate" := rfl

/-- The C3 features directory: one record carrying the one feature. -/
def dirC3 : String → List VarFeatures := fun _ => [⟨"objX", [("mad", 3)]⟩]

/-- The C3 classifier dict: its training collection used labeltype
"classes". -/
def bundleC3 : ClassifierDict :=
  ⟨some ["mad"], ⟨"periodicfeatures-*.pkl", ["mad"], some 5, "classes"⟩,
   "aep_000", rfTrivial⟩

/-- C3 counterexample: the bundle carries labeltype "classes", yet the
feature collection recorded in the prediction result ran with labeltype
"binary" — apply_rf_classifier reads the bundle labeltype but does not
forward it to collect_features. -/
theorem apply_rf_classifier_labeltype_not_forwarded :
    (apply_rf_classifier (fun _ => none) dirC3 (.value bundleC3) none).map
        (Option.map (fun out => out.features.kwargs.labeltype))
      = .ok (some "binary")
  ∧ bundleC3.collect_kwargs.labeltype = "classes" := ⟨rfl, rfl⟩

/-- C3 (amended): for every resolvable bundle carrying feature_names,
a successful apply_rf_classifier run collected its features with the
bundle glob and feature-name list and the bundle magcol, but with the
collector default labeltype "binary" rather than the bundle labeltype
(which has no effect on the collected features, since no label map is
supplied at inference). -/
theorem apply_rf_classifier_reinvokes_collector
    (fs : String → Option ClassifierDict) (dir : String → List VarFeatures)
    (arg : PyArg ClassifierDict) (mo : Option Int)
    (clfdict : ClassifierDict) (hres : resolve_input fs arg = some clfdict)
    (fnames : List String) (hf : clfdict.feature_names = some fnames)
    (out : ApplyOut) (h : apply_rf_classifier fs dir arg mo = .ok (some out)) :
    collect_features dir clfdict.magcol clfdict.collect_kwargs.pklglob fnames
        mo none "binary"
      = .ok out.features
  ∧ out.features.kwargs
      = ⟨clfdict.collect_kwargs.pklglob, fnames, mo, "binary"⟩ := by
  cases hc : collect_features dir clfdict.magcol clfdict.collect_kwargs.pklglob
      fnames mo none "binary" with
  | error e =>
    have happ : apply_rf_classifier fs dir arg mo = .error e := by
      unfold apply_rf_classifier
      simp only [hres, hf, hc]
    rw [happ] at h
    exact Except.noConfusion h
  | ok features =>
    have happ : apply_rf_classifier fs dir arg mo
        = .ok (some { features := features, classifier := clfdict,
                      predicted_labels :=
                        clfdict.best_classifier.predict features.features_array,
                      predicted_label_probs :=
                        clfdict.best_classifier.predict_proba
                          features.features_array }) := by
      unfold apply_rf_classifier
      simp only [hres, hf, hc]
    rw [happ] at h
    injection h with h
    injection h with h
    subst h
    refine ⟨rfl, ?_⟩
    rw [collect_features_cases] at hc
    obtain ⟨arr, _, hfd⟩ := (except_map_eq_ok _ _ _).mp hc
    rw [← hfd]

/-- Witness for apply_rf_classifier_reinvokes_collector at a concrete
input (the C3 run). -/
theorem apply_rf_classifier_reinvokes_collector_witness :
    collect_features dirC3 bundleC3.magcol bundleC3.collect_kwargs.pklglob
        ["mad"] none none "binary"
      = .ok { objectids := ["objX"], magcol := "aep_000",
              availablefeatures := ["mad"], features_array := [[3]],
              labels_array := none,
              kwargs := ⟨"periodicfeatures-*.pkl", ["mad"], none, "binary"⟩ }
  ∧ ({ objectids := ["objX"], magcol := "aep_000",
       availablefeatures := ["mad"], features_array := [[3]],
       labels_array := none,
       kwargs := ⟨"periodicfeatures-*.pkl", ["mad"], none, "binary"⟩ }
        : FeatureDict).kwargs
      = ⟨bundleC3.collect_kwargs.pklglob, ["mad"], none, "binary"⟩ := by
  have h := apply_rf_classifier_reinvokes_collector (fun _ => none) dirC3
    (.value bundleC3) none bundleC3 rfl ["mad"] rfl
    { features := { objectids := ["objX"], magcol := "aep_000",
                    availablefeatures := ["mad"], features_array := [[3]],
                    labels_array := none,
                    kwargs := ⟨"periodicfeatures-*.pkl", ["mad"], none,
                               "binary"⟩ },
      classifier := bundleC3,
      predicted_labels := [],
      predicted_label_probs := [] } rfl
  exact h

/-- C8: when the input argument of the training or application entry
point is neither a dict nor a string naming an existing file, the
function returns an absent result (and, for the applier, does so
without raising). -/
theorem unresolvable_input_returns_none {τ : Type} (core : FeatureDict → τ)
    (fs1 : String → Option FeatureDict) (a1 : PyArg FeatureDict)
    (fs2 : String → Option ClassifierDict) (dir : String → List VarFeatures)
    (a2 : PyArg ClassifierDict) (mo : Option Int)
    (h1v : ∀ d, a1 ≠ PyArg.value d)
    (h1p : ∀ q, a1 = PyArg.path q → fs1 q = none)
    (h2v : ∀ d, a2 ≠ PyArg.value d)
    (h2p : ∀ q, a2 = PyArg.path q → fs2 q = none) :
    train_rf_classifier core fs1 a1 = none
  ∧ apply_rf_classifier fs2 dir a2 mo = .ok none := by
  have r1 : resolve_input fs1 a1 = none := by
    cases a1 with
    | path q => exact h1p q rfl
    | value d => exact absurd rfl (h1v d)
    | other => rfl
  have r2 : resolve_input fs2 a2 = none := by
    cases a2 with
    | path q => exact h2p q rfl
    | value d => exact absurd rfl (h2v d)
    | other => rfl
  constructor
  · unfold train_rf_classifier
    rw [r1]
    rfl
  · unfold apply_rf_classifier
    rw [r2]

/-- Witness for unresolvable_input_returns_none at concrete inputs: a
wrong-typed argument for the trainer and a missing path for the
applier. -/
theorem unresolvable_input_returns_none_witness :
    train_rf_classifier (fun _ => (0 : Nat)) (fun _ => none)
        (PyArg.other : PyArg FeatureDict) = none
  ∧ apply_rf_classifier (fun _ => none) (fun _ => [])
        (PyArg.path "missing.pkl") none = .ok none :=
  unresolvable_input_returns_none (fun _ => (0 : Nat)) (fun _ => none)
    PyArg.other (fun _ => none) (fun _ => []) (PyArg.path "missing.pkl") none
    (fun _ h => PyArg.noConfusion h) (fun _ h => PyArg.noConfusion h)
    (fun _ h => PyArg.noConfusion h) (fun _ _ => rfl)

/-- The inner feature loop never touches the objectid list. -/
theorem collect_one_feature_objectids (tf : List (String × Int))
    (s : AccState) (f : String) :
    (collect_one_feature tf s f).objectids = s.objectids := by
  unfold collect_one_feature
  cases h : lookupStr tf f <;> simp only [h] <;> split <;> rfl

/-- Folding the inner feature loop never touches the objectid list. -/
theorem foldl_features_objectids (tf : List (String × Int))
    (feats : List String) (s : AccState) :
    (feats.foldl (collect_one_feature tf) s).objectids = s.objectids := by
  induction feats generalizing s with
  | nil => rfl
  | cons f rest ih =>
    rw [List.foldl_cons, ih, collect_one_feature_objectids]

/-- Processing one record either keeps the objectid list or appends the
record objectid. -/
theorem collect_one_record_objectids (feats : List String) (s : AccState)
    (r : VarFeatures) :
    (collect_one_record feats s r).objectids
      = if r.objectid ∈ s.objectids then s.objectids
        else s.objectids ++ [r.objectid] := by
  unfold collect_one_record
  by_cases hm : r.objectid ∈ s.objectids <;>
    simp [hm, foldl_features_objectids]

/-- A non-empty objectid list stays non-empty through the pickle loop. -/
theorem foldl_records_objectids_ne_nil (feats : List String)
    (records : List VarFeatures) :
    ∀ s : AccState, s.objectids ≠ [] →
      ((records.foldl (collect_one_record feats) s).objectids) ≠ [] := by
  induction records with
  | nil => exact fun s h => h
  | cons r rest ih =>
    intro s h
    rw [List.foldl_cons]
    apply ih
    rw [collect_one_record_objectids]
    by_cases hm : r.objectid ∈ s.objectids
    · simpa [hm] using h
    · simp [hm]

/-- A non-empty pickle list yields a non-empty objectid list. -/
theorem foldl_records_objectids_ne_nil_of_records (feats : List String)
    (records : List VarFeatures) (h : records ≠ []) :
    ((records.foldl (collect_one_record feats) initialAccState).objectids)
      ≠ [] := by
  obtain ⟨r, rest, rfl⟩ := List.exists_cons_of_ne_nil h
  rw [List.foldl_cons]
  apply foldl_records_objectids_ne_nil
  rw [collect_one_record_objectids]
  simp [initialAccState]

/-- C10: maxobjects = 0 is falsy in "if maxobjects:", so no truncation
is applied: the processed list is the full glob result; truncation to
the first maxobjects files happens for strictly positive maxobjects;
the collection with maxobjects = 0 is the collection with maxobjects =
None except for the recorded kwargs, and it is not empty when the glob
matched files. -/
theorem collect_features_maxobjects_zero (dir : String → List VarFeatures)
    (magcol glob : String) (feats : List String)
    (ld : Option (List (String × Int))) (lt : String) :
    effective_pklist (dir glob) (some 0) = dir glob
  ∧ (∀ m : Int, 0 < m →
      effective_pklist (dir glob) (some m) = (dir glob).take m.toNat)
  ∧ collect_features dir magcol glob feats (some 0) ld lt
      = (collect_features dir magcol glob feats none ld lt).map
          (fun fd => { fd with
            kwargs := { fd.kwargs with maxobjects := some 0 } })
  ∧ (∀ fd, collect_features dir magcol glob feats (some 0) ld lt = .ok fd →
      dir glob ≠ [] → fd.objectids ≠ []) := by
  have heff : effective_pklist (dir glob) (some 0) = dir glob := by
    unfold effective_pklist
    simp
  have hstate : collect_state dir glob feats (some 0)
      = collect_state dir glob feats none := by
    unfold collect_state
    rw [heff]
    rfl
  refine ⟨heff, ?_, ?_, ?_⟩
  · intro m hm
    unfold effective_pklist pySliceTo
    have hm0 : ¬ m = 0 := by omega
    simp [hm0, le_of_lt hm]
  · rw [collect_features_cases, collect_features_cases, hstate]
    cases column_stack
        ((collect_state dir glob feats none).availablefeatures.map
          (collect_state dir glob feats none).featvals) <;> rfl
  · intro fd h hne
    rw [collect_features_cases] at h
    obtain ⟨arr, _, hfd⟩ := (except_map_eq_ok _ _ _).mp h
    subst hfd
    show (collect_state dir glob feats (some 0)).objectids ≠ []
    rw [hstate]
    unfold collect_state
    exact foldl_records_objectids_ne_nil_of_records feats (dir glob)
      (by simpa [effective_pklist] using hne)

/-- The C10 features directory: two records with one feature each. -/
def dirC10 : String → List VarFeatures :=
  fun _ => [⟨"w1", [("mad", 2)]⟩, ⟨"w2", [("mad", 4)]⟩]

/-- Witness for collect_features_maxobjects_zero at a concrete input. -/
theorem collect_features_maxobjects_zero_witness :
    effective_pklist (dirC10 "g") (some 0) = dirC10 "g"
  ∧ effective_pklist (dirC10 "g") (some 1) = (dirC10 "g").take 1
  ∧ (["w1", "w2"] : List String) ≠ [] := by
  have h := collect_features_maxobjects_zero dirC10 "aep" "g" ["mad"]
    none "binary"
  refine ⟨h.1, h.2.1 1 (by decide), ?_⟩
  exact h.2.2.2
    { objectids := ["w1", "w2"], magcol := "aep",
      availablefeatures := ["mad"], features_array := [[2], [4]],
      labels_array := none, kwargs := ⟨"g", ["mad"], some 0, "binary"⟩ }
    rfl (by decide)

/-- Characterization of the inner feature loop when every feature of a
duplicate-free request list is present in the record: the available
list gains exactly the not-yet-registered features in request order,
and every requested feature value list gains the record value (a
feature registered for the first time starts from the empty list). -/
theorem foldl_features_all_present (tf : List (String × Int)) :
    ∀ feats : List String, feats.Nodup →
      (∀ f ∈ feats, (lookupStr tf f).isSome) →
      ∀ s : AccState,
        ((feats.foldl (collect_one_feature tf) s).availablefeatures
          = s.availablefeatures
            ++ feats.filter (fun f => decide (f ∉ s.availablefeatures)))
      ∧ (∀ g, (feats.foldl (collect_one_feature tf) s).featvals g =
          if g ∈ feats then
            (if g ∈ s.availablefeatures then s.featvals g else [])
              ++ [(lookupStr tf g).getD 0]
          else s.featvals g) := by
  intro feats
  induction feats with
  | nil =>
    intro _ _ s
    exact ⟨by simp, fun g => by simp⟩
  | cons f rest ih =>
    intro hnd hpres s
    obtain ⟨hfr, hndr⟩ := List.nodup_cons.mp hnd
    obtain ⟨v, hv⟩ :=
      Option.isSome_iff_exists.mp (hpres f (List.mem_cons_self f rest))
    have hpr : ∀ g ∈ rest, (lookupStr tf g).isSome :=
      fun g hg => hpres g (List.mem_cons_of_mem f hg)
    rw [List.foldl_cons]
    by_cases hmem : f ∈ s.availablefeatures
    · have e_avail : (collect_one_feature tf s f).availablefeatures
          = s.availablefeatures := by
        simp [collect_one_feature, hmem, hv]
      have e_fv : ∀ g, (collect_one_feature tf s f).featvals g
          = if g = f then s.featvals g ++ [v] else s.featvals g := by
        intro g
        by_cases hgf : g = f <;> simp [collect_one_feature, hmem, hv, hgf]
      obtain ⟨ih1, ih2⟩ := ih hndr hpr (collect_one_feature tf s f)
      constructor
      · rw [ih1]
        simp only [e_avail]
        congr 1
        rw [List.filter_cons]
        simp [hmem]
      · intro g
        rw [ih2 g]
        by_cases hgrest : g ∈ rest
        · have hgf : g ≠ f := fun e => hfr (e ▸ hgrest)
          simp [hgrest, e_avail, e_fv, hgf, List.mem_cons]
        · by_cases hgf : g = f
          · subst hgf
            simp [hgrest, e_fv, hmem, List.mem_cons, hv]
          · simp [hgrest, hgf, e_fv, List.mem_cons]
    · have e_avail : (collect_one_feature tf s f).availablefeatures
          = s.availablefeatures ++ [f] := by
        simp [collect_one_feature, hmem, hv]
      have e_fv : ∀ g, (collect_one_feature tf s f).featvals g
          = if g = f then [v] else s.featvals g := by
        intro g
        by_cases hgf : g = f <;> simp [collect_one_feature, hmem, hv, hgf]
      obtain ⟨ih1, ih2⟩ := ih hndr hpr (collect_one_feature tf s f)
      constructor
      · rw [ih1]
        simp only [e_avail]
        have hfc : rest.filter
              (fun g => decide (g ∉ s.availablefeatures ++ [f]))
            = rest.filter (fun g => decide (g ∉ s.availablefeatures)) := by
          apply List.filter_congr
          intro g hg
          have hgf : g ≠ f := fun e => hfr (e ▸ hg)
          simp [List.mem_append, hgf]
        rw [hfc, List.filter_cons]
        simp [hmem, List.append_assoc]
      · intro g
        rw [ih2 g]
        by_cases hgrest : g ∈ rest
        · have hgf : g ≠ f := fun e => hfr (e ▸ hgrest)
          have hms : (g ∈ s.availablefeatures ++ [f])
              ↔ g ∈ s.availablefeatures := by simp [hgf]
          simp [hgrest, e_avail, e_fv, hgf, List.mem_cons, hms]
        · by_cases hgf : g = f
          · subst hgf
            simp [hgrest, e_fv, hmem, List.mem_cons, hv]
          · simp [hgrest, hgf, e_fv, List.mem_cons]

/-- Characterization of the pickle loop over complete records (every
requested feature present in every record), starting from a state that
already has the full request list registered: objectids of fresh
records are appended in order and each feature value list is extended
by one value per record. -/
theorem foldl_records_complete (feats : List String) (hnd : feats.Nodup)
    (hlen : 0 < feats.length) :
    ∀ records : List VarFeatures, ∀ s : AccState,
      (∀ r ∈ records, ∀ f ∈ feats, (lookupStr r.features f).isSome) →
      s.availablefeatures = feats →
      (∀ r ∈ records, r.objectid ∉ s.objectids) →
      ((records.map (fun r => r.objectid)).Nodup) →
      ((records.foldl (collect_one_record feats) s).objectids
          = s.objectids ++ records.map (fun r => r.objectid))
      ∧ ((records.foldl (collect_one_record feats) s).availablefeatures
          = feats)
      ∧ (∀ g ∈ feats,
          (records.foldl (collect_one_record feats) s).featvals g
            = s.featvals g
              ++ records.map (fun r => (lookupStr r.features g).getD 0)) := by
  intro records
  induction records with
  | nil =>
    intro s _ havail _ _
    exact ⟨by simp, havail, fun g _ => by simp⟩
  | cons r rest ih =>
    intro s hpres havail hnew hidsnd
    have hrnotin : r.objectid ∉ s.objectids :=
      hnew r (List.mem_cons_self r rest)
    have hrec : collect_one_record feats s r
        = feats.foldl (collect_one_feature r.features)
            { s with objectids := s.objectids ++ [r.objectid] } := by
      unfold collect_one_record
      simp [hrnotin, hlen]
    obtain ⟨f1, f2⟩ := foldl_features_all_present r.features feats hnd
      (hpres r (List.mem_cons_self r rest))
      { s with objectids := s.objectids ++ [r.objectid] }
    have e_obj : (collect_one_record feats s r).objectids
        = s.objectids ++ [r.objectid] := by
      rw [hrec, foldl_features_objectids]
    have e_avail : (collect_one_record feats s r).availablefeatures
        = feats := by
      rw [hrec, f1]
      show s.availablefeatures
          ++ feats.filter (fun f => decide (f ∉ s.availablefeatures)) = feats
      rw [havail]
      have : feats.filter (fun f => decide (f ∉ feats)) = [] := by
        simp
      rw [this, List.append_nil]
    have e_fv : ∀ g ∈ feats, (collect_one_record feats s r).featvals g
        = s.featvals g ++ [(lookupStr r.features g).getD 0] := by
      intro g hg
      rw [hrec, f2 g]
      show (if g ∈ feats then
              (if g ∈ s.availablefeatures then s.featvals g else [])
                ++ [(lookupStr r.features g).getD 0]
            else s.featvals g)
          = s.featvals g ++ [(lookupStr r.features g).getD 0]
      rw [havail]
      simp [hg]
    have hnew2 : ∀ r2 ∈ rest,
        r2.objectid ∉ (collect_one_record feats s r).objectids := by
      intro r2 h2
      rw [e_obj]
      simp only [List.mem_append, List.mem_singleton]
      rintro (hin | heq)
      · exact hnew r2 (List.mem_cons_of_mem r h2) hin
      · have hmem2 : r2.objectid ∈ rest.map (fun x => x.objectid) :=
          List.mem_map_of_mem _ h2
        rw [heq] at hmem2
        exact (List.nodup_cons.mp hidsnd).1 hmem2
    obtain ⟨o1, o2, o3⟩ := ih (collect_one_record feats s r)
      (fun r2 h2 f hf => hpres r2 (List.mem_cons_of_mem r h2) f hf)
      e_avail hnew2 (List.nodup_cons.mp hidsnd).2
    rw [List.foldl_cons]
    refine ⟨?_, o2, ?_⟩
    · rw [o1, e_obj, List.map_cons]
      simp [List.append_assoc]
    · intro g hg
      rw [o3 g hg, e_fv g hg, List.map_cons]
      simp [List.append_assoc]

/-- np.column_stack on per-feature columns of equal length: succeeds
and produces one row per item whose entries follow the column order. -/
theorem column_stack_of_columns {β : Type} (items : List β)
    (feats : List String) (w : String → β → Int) (hfne : feats ≠ []) :
    column_stack (feats.map (fun g => items.map (w g)))
      = .ok (items.map (fun r => feats.map (fun g => w g r))) := by
  obtain ⟨f0, fs, rfl⟩ := List.exists_cons_of_ne_nil hfne
  rw [List.map_cons]
  simp only [column_stack]
  have hall : ((items.map (w f0)) :: fs.map (fun g => items.map (w g))).all
      (fun c => c.length == (items.map (w f0)).length) = true := by
    rw [List.all_eq_true]
    intro c hc
    rcases List.mem_cons.mp hc with h | h
    · subst h; simp
    · obtain ⟨g, _, rfl⟩ := List.mem_map.mp h
      simp
  rw [if_pos hall]
  congr 1
  rw [List.length_map]
  apply List.ext_getElem
  · simp
  · intro i h1 h2
    have hi : i < items.length := by simpa using h1
    simp only [List.getElem_map, List.getElem_range]
    rw [List.map_cons, List.map_cons, List.map_map]
    congr 1
    · rw [List.getD_eq_getElem _ _ (by simpa using hi), List.getElem_map]
    · apply List.map_congr_left
      intro g _
      simp only [Function.comp_apply]
      rw [List.getD_eq_getElem _ _ (by simpa using hi), List.getElem_map]

/-- Characterization of the full loop state of collect_features (no
truncation) over nonempty complete records with distinct objectids. -/
theorem collect_state_complete (dir : String → List VarFeatures)
    (glob : String) (feats : List String) (hnd : feats.Nodup)
    (hfne : feats ≠ []) (hne : dir glob ≠ [])
    (hids : ((dir glob).map (fun r => r.objectid)).Nodup)
    (hcomplete : ∀ r ∈ dir glob, ∀ f ∈ feats,
      (lookupStr r.features f).isSome) :
    ((collect_state dir glob feats none).objectids
        = (dir glob).map (fun r => r.objectid))
  ∧ ((collect_state dir glob feats none).availablefeatures = feats)
  ∧ (∀ g ∈ feats, (collect_state dir glob feats none).featvals g
      = (dir glob).map (fun r => (lookupStr r.features g).getD 0)) := by
  have hlen : 0 < feats.length := List.length_pos.mpr hfne
  obtain ⟨r0, rest, hcons⟩ := List.exists_cons_of_ne_nil hne
  rw [hcons, List.map_cons] at hids
  unfold collect_state effective_pklist
  rw [hcons]
  rw [List.foldl_cons]
  have h0pres : ∀ f ∈ feats, (lookupStr r0.features f).isSome := by
    intro f hf
    exact hcomplete r0 (by rw [hcons]; exact List.mem_cons_self r0 rest) f hf
  have hrec0 : collect_one_record feats initialAccState r0
      = feats.foldl (collect_one_feature r0.features)
          ⟨[r0.objectid], [], fun _ => []⟩ := by
    unfold collect_one_record initialAccState
    simp [hlen]
  obtain ⟨f1, f2⟩ := foldl_features_all_present r0.features feats hnd h0pres
    ⟨[r0.objectid], [], fun _ => []⟩
  have e0_obj : (collect_one_record feats initialAccState r0).objectids
      = [r0.objectid] := by
    rw [hrec0, foldl_features_objectids]
  have e0_avail :
      (collect_one_record feats initialAccState r0).availablefeatures
        = feats := by
    rw [hrec0, f1]
    simp
  have e0_fv : ∀ g ∈ feats,
      (collect_one_record feats initialAccState r0).featvals g
        = [(lookupStr r0.features g).getD 0] := by
    intro g hg
    rw [hrec0, f2 g]
    simp [hg]
  obtain ⟨o1, o2, o3⟩ := foldl_records_complete feats hnd hlen rest
    (collect_one_record feats initialAccState r0)
    (fun r2 h2 f hf =>
      hcomplete r2 (by rw [hcons]; exact List.mem_cons_of_mem r0 h2) f hf)
    e0_avail
    (by
      intro r2 h2
      rw [e0_obj]
      simp only [List.mem_singleton]
      intro heq
      have hmem2 : r2.objectid ∈ rest.map (fun x => x.objectid) :=
        List.mem_map_of_mem _ h2
      rw [heq] at hmem2
      exact (List.nodup_cons.mp hids).1 hmem2)
    (List.nodup_cons.mp hids).2
  refine ⟨?_, o2, ?_⟩
  · rw [o1, e0_obj, List.map_cons]
    simp
  · intro g hg
    rw [o3 g hg, e0_fv g hg, List.map_cons]
    simp

/-- C5: over a nonempty directory of records with pairwise-distinct
objectids that all carry every feature of a nonempty duplicate-free
request list, collect_features succeeds with the objectid list in file
order, the availablefeatures equal to the request list, and a feature
matrix with one row per record (in objectid order) and one column per
requested feature (in request order). -/
theorem collect_features_matrix_shape (dir : String → List VarFeatures)
    (magcol glob : String) (feats : List String)
    (ld : Option (List (String × Int))) (lt : String)
    (hne : dir glob ≠ []) (hfne : feats ≠ []) (hnd : feats.Nodup)
    (hids : ((dir glob).map (fun r => r.objectid)).Nodup)
    (hcomplete : ∀ r ∈ dir glob, ∀ f ∈ feats,
      (lookupStr r.features f).isSome) :
    collect_features dir magcol glob feats none ld lt
      = .ok { objectids := (dir glob).map (fun r => r.objectid),
              magcol := magcol,
              availablefeatures := feats,
              features_array := (dir glob).map
                (fun r => feats.map (fun f => (lookupStr r.features f).getD 0)),
              labels_array := ld.map (fun d =>
                ((dir glob).map (fun r => r.objectid)).map (label_for d lt)),
              kwargs := ⟨glob, feats, none, lt⟩ }
  ∧ ((dir glob).map
        (fun r => feats.map (fun f => (lookupStr r.features f).getD 0))).length
      = (dir glob).length
  ∧ (∀ row ∈ (dir glob).map
        (fun r => feats.map (fun f => (lookupStr r.features f).getD 0)),
      row.length = feats.length) := by
  obtain ⟨e_obj, e_avail, e_fv⟩ :=
    collect_state_complete dir glob feats hnd hfne hne hids hcomplete
  have hstack : column_stack
      ((collect_state dir glob feats none).availablefeatures.map
        (collect_state dir glob feats none).featvals)
      = .ok ((dir glob).map
          (fun r => feats.map (fun f => (lookupStr r.features f).getD 0))) := by
    rw [e_avail, List.map_congr_left (fun g hg => e_fv g hg)]
    exact column_stack_of_columns (dir glob) feats
      (fun g r => (lookupStr r.features g).getD 0) hfne
  refine ⟨?_, by simp, ?_⟩
  · rw [collect_features_cases, hstack]
    simp only [Except.map]
    rw [e_obj, e_avail]
  · intro row hrow
    obtain ⟨r, _, rfl⟩ := List.mem_map.mp hrow
    simp

/-- The C5 features directory: two records exposing the same two
features. -/
def dirC5 : String → List VarFeatures :=
  fun _ => [⟨"o1", [("amplitude", 5), ("mad", 6)]⟩,
            ⟨"o2", [("amplitude", 7), ("mad", 8)]⟩]

/-- Witness for collect_features_matrix_shape at a concrete input. -/
theorem collect_features_matrix_shape_witness :
    collect_features dirC5 "aep" "vf-*.pkl" ["amplitude", "mad"] none none
        "binary"
      = .ok { objectids := ["o1", "o2"], magcol := "aep",
              availablefeatures := ["amplitude", "mad"],
              features_array := [[5, 6], [7, 8]],
              labels_array := none,
              kwargs := ⟨"vf-*.pkl", ["amplitude", "mad"], none, "binary"⟩ }
  ∧ ([[5, 6], [7, 8]] : List (List Int)).length = 2
  ∧ (∀ row ∈ ([[5, 6], [7, 8]] : List (List Int)), row.length = 2) := by
  have h := collect_features_matrix_shape dirC5 "aep" "vf-*.pkl"
    ["amplitude", "mad"] none "binary" (by decide) (by decide) (by decide)
    (by decide) (by decide)
  exact ⟨h.1, by decide, by decide⟩

/-- C6: with a label map supplied and a successful collection, the
label vector has one entry per collected objectid, aligned with the
objectid order: each entry is the binary coercion (1 for a truthy map
value, else 0) in binary mode, the mapped class integer in classes
mode, and 0 for objectids absent from the map; in binary mode every
entry is 0 or 1. -/
theorem collect_features_label_vector (dir : String → List VarFeatures)
    (magcol glob : String) (feats : List String) (mo : Option Int)
    (d : List (String × Int)) (lt : String) (fd : FeatureDict)
    (h : collect_features dir magcol glob feats mo (some d) lt = .ok fd)
    (labels : List Int) (hl : fd.labels_array = some labels) :
    labels.length = fd.objectids.length
  ∧ (lt = "binary" → ∀ l ∈ labels, l = 0 ∨ l = 1)
  ∧ (∀ i, i < fd.objectids.length →
      labels.getD i 0 =
        match lookupStr d (fd.objectids.getD i "") with
        | some v => if lt = "binary" then (if v ≠ 0 then 1 else 0)
                    else if lt = "classes" then v
                    else 0
        | none => 0) := by
  rw [collect_features_cases] at h
  obtain ⟨arr, _, hfd⟩ := (except_map_eq_ok _ _ _).mp h
  subst hfd
  have hl2 : some ((collect_state dir glob feats mo).objectids.map
      (label_for d lt)) = some labels := hl
  injection hl2 with hl3
  subst hl3
  refine ⟨by simp, ?_, ?_⟩
  · intro hbin l hlmem
    obtain ⟨oid, _, rfl⟩ := List.mem_map.mp hlmem
    unfold label_for
    cases lookupStr d oid with
    | none => exact Or.inl rfl
    | some v =>
      by_cases hv : v = 0
      · exact Or.inl (by simp [hbin, hv])
      · exact Or.inr (by simp [hbin, hv])
  · intro i hi
    have hi2 : i < (collect_state dir glob feats mo).objectids.length := hi
    rw [List.getD_eq_getElem _ _ (by simpa using hi2), List.getElem_map,
      List.getD_eq_getElem _ _ hi2]
    rfl

/-- The C6 features directory: two records, one labeled. -/
def dirC6 : String → List VarFeatures :=
  fun _ => [⟨"obj1", [("mad", 5)]⟩, ⟨"obj2", [("mad", 7)]⟩]

/-- The C6 label map: obj1 is a truthy (variable) object, obj2 is
absent. -/
def dC6 : List (String × Int) := [("obj1", 1)]

/-- The feature dict the C6 run produces. -/
def fdC6 : FeatureDict :=
  ⟨["obj1", "obj2"], "aep", ["mad"], [[5], [7]], some [1, 0],
   ⟨"vg", ["mad"], none, "binary"⟩⟩

/-- Witness for collect_features_label_vector at a concrete input. -/
theorem collect_features_label_vector_witness :
    ([1, 0] : List Int).length = fdC6.objectids.length
  ∧ ((1 : Int) = 0 ∨ (1 : Int) = 1) := by
  have h := collect_features_label_vector dirC6 "aep" "vg" ["mad"] none dC6
    "binary" fdC6 rfl [1, 0] rfl
  exact ⟨h.1, h.2.1 rfl 1 (by decide)⟩

end Astrobase
